import Mathlib

/-!
Shallow embedding of the brkt-cli encryption workflow engine
(`brkt_cli/encrypt_ami.py`, `brkt_cli/encrypt_gce_image.py`,
`brkt_cli/aws/update_ami.py`, `brkt_cli/__init__.py`) together with proofs
about its naming, polling, failure-dispatch, cleanup-ordering and
block-device-mapping behaviour.

Conventions used throughout:
  * machine strings are `String` / `List Char`,
  * a fallible provider call is driven by an oracle (a `Bool`-valued
    success function), and code that raises is modelled with `Except`
    or with explicit outcome constructors,
  * wall-clock time is a logical clock: the encryption poll loop sleeps
    10 seconds per iteration, so poll `k` happens at time `10 * k`.
-/

namespace BrktCli

/-! ### Image-name suffix handling (`encrypt_ami._append_suffix`,
`encrypt_ami._get_encrypted_suffix`) -/

/-- Python slice `name[:t]` on a list of characters, including the
negative-index behaviour: for `t < 0` Python keeps the first
`len(name) + t` characters (clamped at zero). -/
def pySliceTo (l : List Char) (t : Int) : List Char :=
  if 0 ≤ t then l.take t.toNat else l.take (l.length - t.natAbs)

/-- `AMI_NAME_MAX_LENGTH = 128` from `encrypt_ami.py`. -/
def AMI_NAME_MAX_LENGTH : Nat := 128

/-- Embedding of `encrypt_ami._append_suffix(name, suffix, max_length)`.
`max_length = none` models the Python default `None`; the `m = 0` branch
mirrors Python falsiness of `0` in `if max_length:`. -/
def appendSuffix (name suffix : List Char) (maxLength : Option Nat) : List Char :=
  if suffix = [] then name
  else
    match maxLength with
    | none => name ++ suffix
    | some m =>
      if m = 0 then name ++ suffix
      else pySliceTo name ((m : Int) - (suffix.length : Int)) ++ suffix

/-- Embedding of `encrypt_ami._get_encrypted_suffix()`:
`NAME_ENCRYPTED_IMAGE_SUFFIX % {nonce: make_nonce()}`, i.e.
`" (encrypted <nonce>)"`.  Per the docstring in the source, the nonce
portion is an 8-character hex string such as `787ace7a`. -/
def encryptedImageSuffix (nonce : List Char) : List Char :=
  " (encrypted ".data ++ nonce ++ ")".data

/-! ### Snapshot batch polling (`encrypt_ami.wait_for_snapshots`) -/

/-- A snapshot as observed by one poll of `svc.get_snapshots`: its id and
its status string (`pending`, `completed` or `error`). -/
structure Snapshot where
  id : String
  status : String
deriving DecidableEq

/-- The `error_ids` list built by one iteration of the
`wait_for_snapshots` loop: ids of the snapshots whose status is
`error`. -/
def snapshotErrorIds (snaps : List Snapshot) : List String :=
  (snaps.filter (fun s => s.status = "error")).map (fun s => s.id)

/-- The `done` flag of one iteration of the `wait_for_snapshots` loop:
true when every snapshot of the batch has status `completed`. -/
def snapshotsDone (snaps : List Snapshot) : Bool :=
  snaps.all (fun s => s.status == "completed")

/-- Outcome of `wait_for_snapshots`.  `pollsExhausted` is the artifact of
running the unbounded `while True:` loop on a finite observation trace. -/
inductive SnapOutcome
  | snapshotError (ids : List String)
  | completed
  | pollsExhausted
deriving DecidableEq

/-- Embedding of the `wait_for_snapshots` loop over a finite trace of
polls; each element of `trace` is the batch of snapshot objects returned
by one `svc.get_snapshots` call.  The error check precedes the
completion check, exactly as in the source. -/
def waitForSnapshots : List (List Snapshot) → SnapOutcome
  | [] => .pollsExhausted
  | snaps :: rest =>
    if snapshotErrorIds snaps ≠ [] then .snapshotError (snapshotErrorIds snaps)
    else if snapshotsDone snaps then .completed
    else waitForSnapshots rest

/-! ### Encryptor launch block-device mapping
(`encrypt_ami.run_encryptor_instance`) -/

/-- Embedding of `boto.ec2.blockdevicemapping.EBSBlockDeviceType`,
restricted to the fields the workflow sets. -/
structure EBSBlockDeviceType where
  volume_type : Option String := none
  snapshot_id : Option String := none
  delete_on_termination : Bool := false
  size : Option Nat := none
  iops : Option Nat := none
deriving DecidableEq

/-- Association-list lookup keyed by device-slot name, standing for the
`BlockDeviceMapping` dict access `bdm[dev]`. -/
def bdmGet {α : Type} : List (String × α) → String → Option α
  | [], _ => none
  | (k, v) :: rest, d => if k = d then some v else bdmGet rest d

/-- Embedding of the block-device mapping built by
`run_encryptor_instance` (lines 394-419): `/dev/sda4` holds the guest
snapshot; `/dev/sda5` is a blank volume of size `2 * root_size + 1` for a
fresh encryption, or a snapshot-backed volume of size `root_size` for an
update. -/
def encryptorBlockDeviceMapping (snapshot : String) (root_size : Nat)
    (update_ami : Bool) : List (String × EBSBlockDeviceType) :=
  let guest_unencrypted_root : EBSBlockDeviceType :=
    { volume_type := some "gp2", snapshot_id := some snapshot,
      delete_on_termination := true }
  if !update_ami then
    let guest_encrypted_root : EBSBlockDeviceType :=
      { volume_type := some "gp2", delete_on_termination := true,
        size := some (2 * root_size + 1) }
    [("/dev/sda4", guest_unencrypted_root), ("/dev/sda5", guest_encrypted_root)]
  else
    let guest_encrypted_root : EBSBlockDeviceType :=
      { volume_type := some "gp2", snapshot_id := some snapshot,
        delete_on_termination := true, size := some root_size }
    [("/dev/sda4", guest_unencrypted_root), ("/dev/sda5", guest_encrypted_root)]

/-! ### The GCE workflow (`encrypt_gce_image.encrypt`) -/

/-- Provider and helper calls made by `encrypt_gce_image.encrypt`, in
source order.  Each one can raise. -/
inductive GceStep
  | addBrktEnv
  | runGuest
  | deleteGuest
  | waitDetachGuest
  | getDiskSize
  | createDisk
  | getDiskGuest
  | getDiskBlank
  | runEncryptor
  | getInstanceIp
  | waitEncryptorUp
  | waitEncryption
  | deleteEncryptor
  | createSnapshot
  | waitDetachEncryptor
  | createImageFromDisk
  | waitImage
  | waitSnapshot
deriving DecidableEq

/-- Calls of the first `try` block of `encrypt_gce_image.encrypt`
(lines 36-52): guest launch, teardown and blank-disk creation. -/
def gceSetupSteps : List GceStep :=
  [.addBrktEnv, .runGuest, .deleteGuest, .waitDetachGuest, .getDiskSize,
   .createDisk]

/-- Calls of the second `try` block (lines 60-73): encryptor launch and
the encryption wait. -/
def gceEncryptorSteps : List GceStep :=
  [.getDiskGuest, .getDiskBlank, .runEncryptor, .getInstanceIp,
   .waitEncryptorUp, .waitEncryption, .deleteEncryptor]

/-- Calls of the third `try` block (lines 80-96): snapshot and image
creation. -/
def gceImageSteps : List GceStep :=
  [.createSnapshot, .waitDetachEncryptor, .createImageFromDisk, .waitImage,
   .waitSnapshot]

/-- Environment of one GCE run: which calls succeed, and the guest root
disk size reported by `gce_svc.get_disk_size`. -/
structure GceOracle where
  ok : GceStep → Bool
  diskSize : Nat

/-- The numeric argument passed along with a call:
`gce_svc.create_disk(zone, encrypted_image_disk, guest_size * 2 + 1)`
receives the blank-disk size computed from the `get_disk_size` result;
every other call carries no size. -/
def gceStepArg (o : GceOracle) : GceStep → Option Nat
  | .createDisk => some (o.diskSize * 2 + 1)
  | _ => none

/-- Observable events of a GCE run: provider calls with their numeric
argument, and the `gce_svc.cleanup(zone)` compensation call. -/
inductive GceEv
  | op (s : GceStep) (arg : Option Nat)
  | cleanup
deriving DecidableEq

/-- Runs a straight-line sequence of calls until the first one that
raises; returns the calls attempted (the failing call included) and the
failing call, if any. -/
def runGceSteps (o : GceOracle) : List GceStep → List GceStep × Option GceStep
  | [] => ([], none)
  | s :: rest =>
    if o.ok s then
      let r := runGceSteps o rest
      (s :: r.1, r.2)
    else ([s], some s)

/-- Result of one `encrypt_gce_image.encrypt` run: the events in order,
and the step whose exception propagated to the caller, if any. -/
structure GceRun where
  events : List GceEv
  raised : Option GceStep
deriving DecidableEq

/-- Embedding of `encrypt_gce_image.encrypt`: three sequential `try`
blocks.  The first two call `gce_svc.cleanup(zone)` in their exception
handler before re-raising; the third re-raises without cleaning up; a
fully successful run ends with a cleanup call. -/
def gceEncrypt (o : GceOracle) : GceRun :=
  let evs := fun (l : List GceStep) => l.map (fun s => GceEv.op s (gceStepArg o s))
  let r1 := runGceSteps o gceSetupSteps
  match r1.2 with
  | some s => ⟨evs r1.1 ++ [.cleanup], some s⟩
  | none =>
    let r2 := runGceSteps o gceEncryptorSteps
    match r2.2 with
    | some s => ⟨evs r1.1 ++ evs r2.1 ++ [.cleanup], some s⟩
    | none =>
      let r3 := runGceSteps o gceImageSteps
      match r3.2 with
      | some s => ⟨evs r1.1 ++ evs r2.1 ++ evs r3.1, some s⟩
      | none => ⟨evs r1.1 ++ evs r2.1 ++ evs r3.1 ++ [.cleanup], none⟩

/-! ### Encryption progress polling (`encrypt_ami.wait_for_encryption`)

The loop polls `enc_svc.get_status()` and sleeps 10 seconds in both the
error branch and the normal branch, so poll `k` happens at logical time
`10 * k`.  `util.Deadline` is not under `src/`; following the spec
(section 4.2 and the stall-timeout glossary entry), a deadline created at
time `c` with window `T` is expired at time `t` iff the progress has been
stalled for longer than the window, i.e. iff `c + T < t`. -/

/-- One `get_status()` result: the JSON body
`{state, percent_complete, failure_code?}`. -/
structure EncStatus where
  state : String
  percent_complete : Nat
  failure_code : Option String := none
deriving DecidableEq

/-- One iteration of the poll loop observes either a status (`some`) or a
transport/parse failure (`none`, the `except` branch). -/
abbrev EncPoll := Option EncStatus

/-- Modelled from the spec: `encryptor_service.ENCRYPT_SUCCESSFUL`.  The
module `encryptor_service.py` is not under `src/`; the spec data model
names the terminal success state `succeeded`. -/
def ENCRYPT_SUCCESSFUL : String := "succeeded"

/-- Modelled from the spec: `encryptor_service.ENCRYPT_FAILED`, the
terminal failure state `failed` of the spec data model. -/
def ENCRYPT_FAILED : String := "failed"

/-- Modelled from the spec: the distinguished
`encryptor_service.FAILURE_CODE_UNSUPPORTED_GUEST` code signaling
guest-OS incompatibility.  Only its identity matters. -/
def FAILURE_CODE_UNSUPPORTED_GUEST : String := "unsupported_guest"

/-- `ENCRYPTION_PROGRESS_TIMEOUT = 10 * 60` from `encrypt_ami.py`. -/
def ENCRYPTION_PROGRESS_TIMEOUT : Nat := 10 * 60

/-- `max_errs = 10` from `wait_for_encryption`. -/
def MAX_ERRS : Nat := 10

/-- How `wait_for_encryption` ends: normal return (`succeeded`), the
stall-timeout `EncryptionError`, the two `state == failed` errors, the
`Encryption service unavailable` error after ten consecutive status
failures, or exhaustion of the finite observation trace. -/
inductive EncOutcome
  | succeeded
  | stalled
  | unsupportedGuest
  | encryptionFailed
  | unavailable
  | pollsExhausted
deriving DecidableEq

/-- Embedding of the `while err_count < max_errs:` loop of
`wait_for_encryption`, indexed by the poll number `k`.  The loop state is
`(err_count, last_progress, reset_time)` where `reset_time` is the
creation time of the current `progress_deadline`.  The stall check uses
the deadline from *before* the current poll and precedes the progress
update and the state dispatch, exactly as in the source (lines 228-254).
`fuel` only bounds the recursion; it is kept at `polls.length + 1 - k` so
it never cuts a run short. -/
def waitLoop (polls : List EncPoll) (T : Nat) :
    Nat → Nat → Nat → Nat → Nat → EncOutcome
  | 0, _, _, _, _ => .pollsExhausted
  | fuel + 1, k, e, lp, rt =>
    if MAX_ERRS ≤ e then .unavailable
    else
      match polls[k]? with
      | none => .pollsExhausted
      | some none => waitLoop polls T fuel (k + 1) (e + 1) lp rt
      | some (some st) =>
        if rt + T < 10 * k then .stalled
        else
          let lp2 := if lp < st.percent_complete then st.percent_complete else lp
          let rt2 := if lp < st.percent_complete then 10 * k else rt
          if st.state = ENCRYPT_SUCCESSFUL then .succeeded
          else if st.state = ENCRYPT_FAILED then
            if st.failure_code = some FAILURE_CODE_UNSUPPORTED_GUEST then
              .unsupportedGuest
            else .encryptionFailed
          else waitLoop polls T fuel (k + 1) 0 lp2 rt2

/-- Embedding of `wait_for_encryption(enc_svc, progress_timeout)` on a
finite trace of poll observations. -/
def waitForEncryption (polls : List EncPoll) (T : Nat) : EncOutcome :=
  waitLoop polls T (polls.length + 1) 0 0 0 0

/-- The successfully observed status of poll `k`, if any. -/
def getOk (polls : List EncPoll) (k : Nat) : Option EncStatus :=
  match polls[k]? with
  | some (some st) => some st
  | _ => none

/-- Number of consecutive failed polls immediately before poll `k`; this
is the value of `err_count` when iteration `k` starts. -/
def errStreak (polls : List EncPoll) : Nat → Nat
  | 0 => 0
  | k + 1 =>
    match polls[k]? with
    | some none => errStreak polls k + 1
    | some (some _) => 0
    | none => errStreak polls k

/-- Running maximum of the observed `percent_complete` values before poll
`k`; this is the value of `last_progress` when iteration `k` starts
(initially 0). -/
def runningMax (polls : List EncPoll) : Nat → Nat
  | 0 => 0
  | k + 1 =>
    match getOk polls k with
    | some st => max (runningMax polls k) st.percent_complete
    | none => runningMax polls k

/-- Time of the most recent poll before `k` that observed an increase of
`percent_complete` (a strict record high), or 0 when none did; this is
the creation time of the `progress_deadline` in force when iteration `k`
starts. -/
def lastResetTime (polls : List EncPoll) : Nat → Nat
  | 0 => 0
  | k + 1 =>
    match getOk polls k with
    | some st =>
      if runningMax polls k < st.percent_complete then 10 * k
      else lastResetTime polls k
    | none => lastResetTime polls k

/-- Trace-level predicate: at poll `k` the loop is still able to poll
(fewer than `max_errs` consecutive failures), observes a status, and more
than `T` seconds have passed since the last observed increase of
`percent_complete` - the stall condition. -/
def stallsAt (polls : List EncPoll) (T k : Nat) : Bool :=
  decide (errStreak polls k < MAX_ERRS) && (getOk polls k).isSome &&
    decide (lastResetTime polls k + T < 10 * k)

/-- Trace-level predicate: iteration `k` ends the loop, by any cause:
ten consecutive status failures, the stall condition, or a terminal
`succeeded` / `failed` state. -/
def terminatesAt (polls : List EncPoll) (T k : Nat) : Bool :=
  decide (MAX_ERRS ≤ errStreak polls k) ||
    match getOk polls k with
    | some st =>
      decide (lastResetTime polls k + T < 10 * k) ||
        decide (st.state = ENCRYPT_SUCCESSFUL) ||
        decide (st.state = ENCRYPT_FAILED)
    | none => false

/-! ### Cleanup pass (`encrypt_ami._clean_up`, `terminate_instance`, and
the `finally` block of `encrypt_ami.encrypt`) -/

/-- Exceptions a Python function can raise in this model.  Iterating over
`None` raises `TypeError`. -/
inductive PyErr
  | typeError
deriving DecidableEq

/-- Observable events of one `_clean_up` invocation, in source order of
the five loops.  Every provider-call failure inside `_clean_up` is caught
and logged, so only the success of `terminate_instance` (which decides
membership in `terminated_instance_ids`) influences later behaviour; the
other calls are recorded as attempts. -/
inductive CleanEv
  | terminateReq (id : String) (ok : Bool)
  | deleteSnapshotCall (id : String)
  | waitTerminated (id : String)
  | deleteVolumeCall (id : String)
  | deleteSecurityGroupCall (id : String)
deriving DecidableEq

/-- The first loop of `_clean_up`: request termination of every instance,
catching failures; collect the ids whose termination call succeeded
(`terminated_instance_ids`). -/
def terminateLoop (ok : String → Bool) :
    List String → List CleanEv × List String
  | [] => ([], [])
  | id :: rest =>
    let r := terminateLoop ok rest
    if ok id then (.terminateReq id true :: r.1, id :: r.2)
    else (.terminateReq id false :: r.1, r.2)

/-- Embedding of `_clean_up(aws_svc, instance_ids, volume_ids,
snapshot_ids, security_group_ids)`.  Parameters keep the source order and
the source default of `None` (`Option.none`); each `for` loop raises
`TypeError` when handed `None`, at the point where the loop starts.
Events attempted before such a raise are not recorded; the theorems below
only inspect the events of completed runs and whether a run raises. -/
def cleanUp (ok : String → Bool)
    (instance_ids volume_ids snapshot_ids security_group_ids :
      Option (List String)) : Except PyErr (List CleanEv) :=
  match instance_ids with
  | none => .error .typeError
  | some iids =>
    let r := terminateLoop ok iids
    match snapshot_ids with
    | none => .error .typeError
    | some sids =>
      match volume_ids with
      | none => .error .typeError
      | some vids =>
        match security_group_ids with
        | none => .error .typeError
        | some gids =>
          .ok (r.1 ++ sids.map CleanEv.deleteSnapshotCall ++
            r.2.map CleanEv.waitTerminated ++
            vids.map CleanEv.deleteVolumeCall ++
            gids.map CleanEv.deleteSecurityGroupCall)

/-- True of the events that `_clean_up` emits after the instance waits:
volume deletions and security-group deletions. -/
def isLateDelete : CleanEv → Bool
  | .deleteVolumeCall _ => true
  | .deleteSecurityGroupCall _ => true
  | _ => false

/-- True of termination requests. -/
def isTerminateReq : CleanEv → Bool
  | .terminateReq _ _ => true
  | _ => false

/-- True of termination waits. -/
def isWaitTerminated : CleanEv → Bool
  | .waitTerminated _ => true
  | _ => false

/-! ### Control flow of `encrypt_ami.encrypt` (lines 697-871) -/

/-- The calls of the `try` body of `encrypt` that can raise, in source
order.  `terminate_instance` is absent on purpose: it swallows the
exception of its inner `aws_svc.terminate_instance` call (lines 522-528)
and therefore never raises. -/
inductive EncStep
  | runSnapshotter
  | snapshotRoot
  | sgCreate
  | runEncryptor
  | waitEncUp
  | waitEncryption
  | stopEnc
  | waitStop
  | snapGuest
  | snapBsd
  | snapGrub
  | snapLog
  | waitSnaps
  | register
deriving DecidableEq

/-- Result of one `encrypt` run: the `instance_ids` list that the
`finally` block hands to `_clean_up`, whether each of the two
`terminate_instance` calls was reached, and whether the run raised. -/
structure EncryptRun where
  finallyInstanceIds : List String
  reachedTermSnapshotter : Bool
  reachedTermEncryptor : Bool
  raised : Bool
deriving DecidableEq

/-- Embedding of the control flow of `encrypt` (lines 697-871), driven by
the first call that raises (`none` for a fully successful run), with
`snapId` and `encId` the provider-assigned helper-instance ids.  Each
branch returns what the `finally` block sees at that point:
`instance_ids` collects `snapshotter_instance.id` and
`encryptor_instance.id` for whichever variable is still non-`None`
(lines 834-838).  The variable is set to `None` right after each
`terminate_instance` call (lines 719 and 821), whether or not the inner
termination succeeded, so from then on that id is dropped from the
`finally` list. -/
def encryptFlow (snapId encId : String) : Option EncStep → EncryptRun
  | some .runSnapshotter => ⟨[], false, false, true⟩
  | some .snapshotRoot => ⟨[snapId], false, false, true⟩
  | some .sgCreate => ⟨[], true, false, true⟩
  | some .runEncryptor => ⟨[], true, false, true⟩
  | some .waitEncUp => ⟨[encId], true, false, true⟩
  | some .waitEncryption => ⟨[encId], true, false, true⟩
  | some .stopEnc => ⟨[encId], true, false, true⟩
  | some .waitStop => ⟨[encId], true, false, true⟩
  | some .snapGuest => ⟨[encId], true, false, true⟩
  | some .snapBsd => ⟨[encId], true, false, true⟩
  | some .snapGrub => ⟨[encId], true, false, true⟩
  | some .snapLog => ⟨[encId], true, false, true⟩
  | some .waitSnaps => ⟨[encId], true, false, true⟩
  | some .register => ⟨[], true, true, true⟩
  | none => ⟨[], true, true, false⟩

/-! ### Update workflow block-device mapping (`aws/update_ami.update_ami`,
steps 3 and 6) -/

/-- `MV_ROOT_DEVICE_NAME` from `update_ami.py`. -/
def MV_ROOT_DEVICE_NAME : String := "/dev/sda1"

/-- `GUEST_ROOT_DEVICE_NAME` from `update_ami.py`. -/
def GUEST_ROOT_DEVICE_NAME : String := "/dev/sdf"

/-- A volume as returned by `aws_svc.get_volume`: its type and IOPS. -/
structure UpdVolume where
  type : String
  iops : Option Nat := none
deriving DecidableEq

/-- An entry of the guest instance block-device mapping mutated by
`update_ami`. -/
structure UpdBdmEntry where
  volume_id : String
  volume_type : Option String := none
  iops : Option Nat := none
  delete_on_termination : Bool := false
deriving DecidableEq

/-- One iteration of the step-3 loop of `update_ami` (lines 182-201) on
the device named `d` mapped to entry `x`: copy the live volume type onto
the mapping entry; for the guest root device, when the live volume type
is `io1`, also copy its IOPS. -/
def preservedEntry (vols : String → UpdVolume) (d : String)
    (x : UpdBdmEntry) : UpdBdmEntry :=
  let vol := vols x.volume_id
  let e1 := { x with volume_type := some vol.type }
  if d = GUEST_ROOT_DEVICE_NAME ∧ vol.type = "io1" then
    { e1 with iops := vol.iops }
  else e1

/-- Step 3 of `update_ami`: the loop body applied to every device of the
guest mapping. -/
def preserveVolumeProperties (vols : String → UpdVolume)
    (bdm : List (String × UpdBdmEntry)) : List (String × UpdBdmEntry) :=
  bdm.map (fun p => (p.1, preservedEntry vols p.1 p.2))

/-- Step 6 of `update_ami` (lines 239-240) on the device named `d`: after
attaching the new metavisor boot disk, force `delete_on_termination` and
a `gp2` volume type on the metavisor root device slot; other devices are
untouched. -/
def mvRootEntry (d : String) (x : UpdBdmEntry) : UpdBdmEntry :=
  if d = MV_ROOT_DEVICE_NAME then
    { x with delete_on_termination := true, volume_type := some "gp2" }
  else x

/-- Step 6 of `update_ami` applied across the mapping. -/
def attachNewMvRoot (bdm : List (String × UpdBdmEntry)) :
    List (String × UpdBdmEntry) :=
  bdm.map (fun p => (p.1, mvRootEntry p.1 p.2))

/-- The block-device mapping handed to `aws_svc.create_image` in step 7,
which becomes the new image mapping: the guest mapping after steps 3
and 6. -/
def updatedImageBdm (vols : String → UpdVolume)
    (bdm : List (String × UpdBdmEntry)) : List (String × UpdBdmEntry) :=
  attachNewMvRoot (preserveVolumeProperties vols bdm)

/-- Claim C8 as stated: in the new image mapping, the volume type and the
IOPS of the guest root device both equal the pre-update values of that
device, i.e. the type and IOPS its live volume reported before the
update. -/
def c8AsStated : Prop :=
  ∀ (vols : String → UpdVolume) (bdm : List (String × UpdBdmEntry))
    (e : UpdBdmEntry),
    bdmGet (updatedImageBdm vols bdm) GUEST_ROOT_DEVICE_NAME = some e →
    e.volume_type = some (vols e.volume_id).type ∧
      e.iops = (vols e.volume_id).iops

/-! ### Concrete environments used to evaluate the embeddings -/

/-- A GCE run in which the `create_snapshot` call of the image-creation
block raises and every other call succeeds. -/
def gceOracleFailSnapshot : GceOracle :=
  ⟨fun s => decide (s ≠ GceStep.createSnapshot), 5⟩

/-- A GCE run in which the guest launch raises. -/
def gceOracleFailRunGuest : GceOracle :=
  ⟨fun s => decide (s ≠ GceStep.runGuest), 5⟩

/-- A fully successful GCE run with a 5 GB guest root disk. -/
def gceOracleAllOk : GceOracle := ⟨fun _ => true, 5⟩


/-! ## Theorems -/

/-! ### Helper lemmas -/

theorem getOk_eq_some_iff {polls : List EncPoll} {k : Nat} {st : EncStatus} :
    getOk polls k = some st ↔ polls[k]? = some (some st) := by
  unfold getOk
  rcases h : polls[k]? with _ | (_ | st2) <;> simp [h]

/-! ### C7: image-name truncation -/

/-- C7.  For every base name and every generated encrypted-image suffix
(the `" (encrypted <nonce>)"` suffix built from an 8-character nonce),
appending under the 128-character maximum yields a name of at most 128
characters that ends with the suffix, the base name being truncated as
needed to make room. -/
theorem appendSuffix_length_le_and_endsWith (name nonce : List Char)
    (h : nonce.length = 8) :
    (appendSuffix name (encryptedImageSuffix nonce)
        (some AMI_NAME_MAX_LENGTH)).length ≤ 128 ∧
    (encryptedImageSuffix nonce).IsSuffix
      (appendSuffix name (encryptedImageSuffix nonce)
        (some AMI_NAME_MAX_LENGTH)) := by
  have hlen : (encryptedImageSuffix nonce).length = 21 := by
    simp [encryptedImageSuffix, h]
  have hne : encryptedImageSuffix nonce ≠ [] := by
    intro hc
    rw [hc] at hlen
    simp at hlen
  have key : appendSuffix name (encryptedImageSuffix nonce)
      (some AMI_NAME_MAX_LENGTH) =
      name.take 107 ++ encryptedImageSuffix nonce := by
    unfold appendSuffix AMI_NAME_MAX_LENGTH pySliceTo
    rw [if_neg hne, hlen]
    norm_num
    rfl
  constructor
  · rw [key]
    have h1 : (name.take 107).length ≤ 107 := by
      simp [List.length_take]
    simp only [List.length_append, hlen]
    omega
  · exact ⟨name.take 107, key.symm⟩

/-- Witness for C7 at a concrete base name and nonce. -/
theorem appendSuffix_length_le_and_endsWith_witness :
    (appendSuffix "my image name".data
        (encryptedImageSuffix "787ace7a".data)
        (some AMI_NAME_MAX_LENGTH)).length ≤ 128 ∧
    (encryptedImageSuffix "787ace7a".data).IsSuffix
      (appendSuffix "my image name".data
        (encryptedImageSuffix "787ace7a".data)
        (some AMI_NAME_MAX_LENGTH)) :=
  appendSuffix_length_le_and_endsWith "my image name".data "787ace7a".data
    (by decide)

/-! ### C4: snapshot errors abort immediately -/

/-- C4.  If every earlier poll of a `wait_for_snapshots` run observed no
error and not-all-completed, and the current poll observes at least one
snapshot in the `error` status, the run raises `SnapshotError` at that
poll, whatever the remaining polls would have shown - it never waits for
the rest of the batch to complete. -/
theorem waitForSnapshots_error_aborts (pre : List (List Snapshot))
    (batch : List Snapshot) (rest : List (List Snapshot))
    (hpre : ∀ b ∈ pre, snapshotErrorIds b = [] ∧ snapshotsDone b = false)
    (hbatch : snapshotErrorIds batch ≠ []) :
    waitForSnapshots (pre ++ batch :: rest) =
      .snapshotError (snapshotErrorIds batch) := by
  induction pre with
  | nil =>
    simp only [List.nil_append, waitForSnapshots]
    rw [if_pos hbatch]
  | cons b bs ih =>
    have hb := hpre b (by simp)
    simp only [List.cons_append, waitForSnapshots]
    rw [if_neg (by simp [hb.1]), if_neg (by simp [hb.2])]
    exact ih (fun x hx => hpre x (by simp [hx]))

/-- Witness for C4: a batch of four snapshots where item 3 enters the
`error` status on the second poll, while items 1 and 4 are still pending,
raises `SnapshotError` naming item 3 immediately. -/
theorem waitForSnapshots_error_aborts_witness :
    waitForSnapshots
      [[⟨"s1", "pending"⟩, ⟨"s2", "pending"⟩, ⟨"s3", "pending"⟩,
        ⟨"s4", "pending"⟩],
       [⟨"s1", "pending"⟩, ⟨"s2", "completed"⟩, ⟨"s3", "error"⟩,
        ⟨"s4", "pending"⟩],
       [⟨"s1", "completed"⟩, ⟨"s2", "completed"⟩, ⟨"s3", "completed"⟩,
        ⟨"s4", "completed"⟩]] = .snapshotError ["s3"] := by
  have h := waitForSnapshots_error_aborts
    [[⟨"s1", "pending"⟩, ⟨"s2", "pending"⟩, ⟨"s3", "pending"⟩,
      ⟨"s4", "pending"⟩]]
    [⟨"s1", "pending"⟩, ⟨"s2", "completed"⟩, ⟨"s3", "error"⟩,
     ⟨"s4", "pending"⟩]
    [[⟨"s1", "completed"⟩, ⟨"s2", "completed"⟩, ⟨"s3", "completed"⟩,
      ⟨"s4", "completed"⟩]]
    (by decide) (by decide)
  exact h.trans (by decide)

/-! ### C9: blank output volume sized 2 x guest root size + 1 -/

theorem gceEncrypt_event_shape (o : GceOracle) :
    ∀ e ∈ (gceEncrypt o).events,
      e = GceEv.cleanup ∨ ∃ s, e = GceEv.op s (gceStepArg o s) := by
  intro e he
  unfold gceEncrypt at he
  rcases h1 : (runGceSteps o gceSetupSteps).2 with _ | s1 <;>
    simp only [h1] at he
  · rcases h2 : (runGceSteps o gceEncryptorSteps).2 with _ | s2 <;>
      simp only [h2] at he
    · rcases h3 : (runGceSteps o gceImageSteps).2 with _ | s3 <;>
        simp only [h3] at he
      · simp only [List.mem_append, List.mem_map, List.mem_singleton] at he
        rcases he with (((⟨s, _, hs⟩ | ⟨s, _, hs⟩) | ⟨s, _, hs⟩) | hc)
        · exact Or.inr ⟨s, hs.symm⟩
        · exact Or.inr ⟨s, hs.symm⟩
        · exact Or.inr ⟨s, hs.symm⟩
        · exact Or.inl hc
      · simp only [List.mem_append, List.mem_map] at he
        rcases he with ((⟨s, _, hs⟩ | ⟨s, _, hs⟩) | ⟨s, _, hs⟩)
        · exact Or.inr ⟨s, hs.symm⟩
        · exact Or.inr ⟨s, hs.symm⟩
        · exact Or.inr ⟨s, hs.symm⟩
    · simp only [List.mem_append, List.mem_map, List.mem_singleton] at he
      rcases he with ((⟨s, _, hs⟩ | ⟨s, _, hs⟩) | hc)
      · exact Or.inr ⟨s, hs.symm⟩
      · exact Or.inr ⟨s, hs.symm⟩
      · exact Or.inl hc
  · simp only [List.mem_append, List.mem_map, List.mem_singleton] at he
    rcases he with (⟨s, _, hs⟩ | hc)
    · exact Or.inr ⟨s, hs.symm⟩
    · exact Or.inl hc

/-- C9.  In a fresh encryption (not an update), the blank output volume
for the encrypted result is allocated with size exactly
2 x guest root size + 1 in both workflows: the AWS encryptor launch maps
`/dev/sda5` to a blank gp2 volume of size `2 * root_size + 1`, and every
`create_disk` call a GCE run makes passes size `guest_size * 2 + 1`. -/
theorem encryptorOutputVolume_size (snapshot : String) (root_size : Nat)
    (o : GceOracle) (arg : Option Nat)
    (hmem : GceEv.op GceStep.createDisk arg ∈ (gceEncrypt o).events) :
    bdmGet (encryptorBlockDeviceMapping snapshot root_size false)
        "/dev/sda5" =
      some { volume_type := some "gp2", delete_on_termination := true,
             size := some (2 * root_size + 1) } ∧
    arg = some (o.diskSize * 2 + 1) := by
  constructor
  · simp [encryptorBlockDeviceMapping, bdmGet]
  · rcases gceEncrypt_event_shape o _ hmem with hc | ⟨s, hs⟩
    · exact absurd hc (by simp)
    · have : s = GceStep.createDisk ∧ arg = gceStepArg o s := by
        cases hs
        exact ⟨rfl, rfl⟩
      rw [this.2, this.1]
      rfl

/-- Witness for C9: a successful GCE run with a 5 GB guest root disk
creates the blank disk with size 11, and the AWS mapping for a 4 GB root
allocates 9 GB at `/dev/sda5`. -/
theorem encryptorOutputVolume_size_witness :
    bdmGet (encryptorBlockDeviceMapping "snap-1" 4 false) "/dev/sda5" =
      some { volume_type := some "gp2", delete_on_termination := true,
             size := some (2 * 4 + 1) } ∧
    some 11 = some (gceOracleAllOk.diskSize * 2 + 1) :=
  encryptorOutputVolume_size "snap-1" 4 gceOracleAllOk (some 11) (by decide)

/-! ### C1: the cleanup pass can raise (code bug) -/

/-- C1 (failing evaluation).  `_clean_up` is expected never to raise, yet
iterating `volume_ids` raises `TypeError` when the `finally` block of
`encrypt` hands it `None` - which happens whenever
`aws_svc.get_volumes` fails (lines 843-853).  With all four lists
populated the same call returns normally even when termination fails,
which shows the raise is specific to the unpopulated list. -/
theorem cleanUp_raises_on_none_volume_ids :
    cleanUp (fun _ => true) (some ["i-snap"]) none (some ["snap-1"])
        (some []) = .error .typeError ∧
    cleanUp (fun _ => false) (some ["i-snap"]) (some ["vol-1"])
        (some ["snap-1"]) (some []) =
      .ok [.terminateReq "i-snap" false, .deleteSnapshotCall "snap-1",
           .deleteVolumeCall "vol-1"] := by
  constructor
  · rfl
  · rfl

/-! ### C10: a terminated instance is excluded from the finally list -/

/-- C10.  In `encrypt`, once `terminate_instance` has been called for the
snapshotter or for the encryptor, that id never appears in the
`instance_ids` list the `finally` block passes to `_clean_up` - whatever
the first raising call is, and even when the swallowed inner termination
attempt failed (the embedding does not model inner termination success at
all, since it influences nothing the `finally` block reads). -/
theorem encryptFlow_terminated_excluded (snapId encId : String)
    (step : Option EncStep) (h : snapId ≠ encId) :
    ((encryptFlow snapId encId step).reachedTermSnapshotter = true →
      snapId ∉ (encryptFlow snapId encId step).finallyInstanceIds) ∧
    ((encryptFlow snapId encId step).reachedTermEncryptor = true →
      encId ∉ (encryptFlow snapId encId step).finallyInstanceIds) := by
  rcases step with _ | s
  · simp [encryptFlow]
  · cases s <;> simp [encryptFlow, h]

/-- Witness for C10: a run that fails while waiting for the encryption
service, after the snapshotter termination was attempted, leaves the
snapshotter id out of the cleanup list. -/
theorem encryptFlow_terminated_excluded_witness :
    ((encryptFlow "i-snap" "i-enc" (some .waitEncUp)).reachedTermSnapshotter
        = true →
      "i-snap" ∉
        (encryptFlow "i-snap" "i-enc" (some .waitEncUp)).finallyInstanceIds) ∧
    ((encryptFlow "i-snap" "i-enc" (some .waitEncUp)).reachedTermEncryptor
        = true →
      "i-enc" ∉
        (encryptFlow "i-snap" "i-enc" (some .waitEncUp)).finallyInstanceIds) :=
  encryptFlow_terminated_excluded "i-snap" "i-enc" (some .waitEncUp)
    (by decide)

/-! ### C6: GCE failures and cleanup -/

/-- Counterexample to C6 as stated.  A GCE run whose
`create_snapshot` call (the first call of the image-creation stage)
raises propagates the error to the caller without any
`gce_svc.cleanup(zone)` call: the third `try` block of
`encrypt_gce_image.encrypt` re-raises without cleaning up. -/
theorem gceEncrypt_image_stage_skips_cleanup :
    (gceEncrypt gceOracleFailSnapshot).raised = some GceStep.createSnapshot ∧
    GceEv.cleanup ∉ (gceEncrypt gceOracleFailSnapshot).events := by
  constructor
  · rfl
  · decide

theorem runGceSteps_fail_mem (o : GceOracle) :
    ∀ (l : List GceStep) (s : GceStep), (runGceSteps o l).2 = some s → s ∈ l := by
  intro l
  induction l with
  | nil =>
    intro s hs
    simp [runGceSteps] at hs
  | cons a rest ih =>
    intro s hs
    unfold runGceSteps at hs
    by_cases ha : o.ok a = true
    · rw [if_pos ha] at hs
      exact List.mem_cons_of_mem a (ih s hs)
    · rw [if_neg ha] at hs
      simp at hs
      simp [hs]

/-- C6 amended: a failure during the setup stage or the encryptor stage
of the GCE workflow triggers the `gce_svc.cleanup(zone)` call before the
error propagates to the caller; a failure during the image-creation
stage propagates without a cleanup call. -/
theorem gceEncrypt_cleanup_before_raise (o : GceOracle) (s : GceStep)
    (hr : (gceEncrypt o).raised = some s) (hs : s ∉ gceImageSteps) :
    GceEv.cleanup ∈ (gceEncrypt o).events := by
  unfold gceEncrypt at hr ⊢
  rcases h1 : (runGceSteps o gceSetupSteps).2 with _ | s1 <;>
    simp only [h1] at hr ⊢
  · rcases h2 : (runGceSteps o gceEncryptorSteps).2 with _ | s2 <;>
      simp only [h2] at hr ⊢
    · rcases h3 : (runGceSteps o gceImageSteps).2 with _ | s3 <;>
        simp only [h3] at hr ⊢
      · simp at hr
      · have hs3 : s3 = s := by simpa using hr
        exact absurd (hs3 ▸ runGceSteps_fail_mem o gceImageSteps s3 h3) hs
    · simp
  · simp

/-- Witness for the amended C6: a run failing at the guest launch calls
cleanup before the error propagates. -/
theorem gceEncrypt_cleanup_before_raise_witness :
    GceEv.cleanup ∈ (gceEncrypt gceOracleFailRunGuest).events :=
  gceEncrypt_cleanup_before_raise gceOracleFailRunGuest GceStep.runGuest
    (by rfl) (by decide)

/-! ### C8: preserved volume type and IOPS of the guest root device -/

/-- Counterexample to C8 as stated.  When the guest root volume is a
`gp2` volume with a reported IOPS value, `update_ami` preserves the
volume type but not the IOPS (the IOPS copy is guarded by
`vol.type == io1`, line 195), so the new mapping keeps its old IOPS
field instead of the pre-update value of the volume. -/
theorem updatedImageBdm_iops_not_always_preserved : ¬ c8AsStated := by
  intro h
  have hc := h (fun _ => ⟨"gp2", some 300⟩)
    [(GUEST_ROOT_DEVICE_NAME, ⟨"vol-g", none, none, false⟩)]
    ⟨"vol-g", some "gp2", none, false⟩ (by rfl)
  simpa using hc.2

/-- C8 amended: in the new image mapping built by `update_ami`, the guest
root device volume type always equals the type its live volume reported
before the update, and when that pre-update type is `io1` the IOPS
setting also equals the volume's pre-update IOPS exactly (for other
volume types the mapping IOPS field is left unchanged). -/
theorem bdmGet_map {α β : Type} (f : String → α → β)
    (l : List (String × α)) (d : String) :
    bdmGet (l.map (fun p => (p.1, f p.1 p.2))) d =
      (bdmGet l d).map (f d) := by
  induction l with
  | nil => rfl
  | cons p rest ih =>
    rcases p with ⟨k, v⟩
    by_cases hk : k = d
    · subst hk
      simp [bdmGet]
    · simp [bdmGet, hk, ih]

theorem updatedImageBdm_guest_root_preserved (vols : String → UpdVolume)
    (bdm : List (String × UpdBdmEntry)) (e : UpdBdmEntry)
    (hget : bdmGet (updatedImageBdm vols bdm) GUEST_ROOT_DEVICE_NAME =
      some e) :
    e.volume_type = some (vols e.volume_id).type ∧
    ((vols e.volume_id).type = "io1" → e.iops = (vols e.volume_id).iops) := by
  unfold updatedImageBdm attachNewMvRoot preserveVolumeProperties at hget
  rw [bdmGet_map, bdmGet_map] at hget
  rw [Option.map_eq_some'] at hget
  obtain ⟨y, hy, he⟩ := hget
  rw [Option.map_eq_some'] at hy
  obtain ⟨x, _, hx⟩ := hy
  have hmv : mvRootEntry GUEST_ROOT_DEVICE_NAME y = y := by
    unfold mvRootEntry
    rw [if_neg (by decide)]
  rw [hmv] at he
  subst he
  subst hx
  unfold preservedEntry
  by_cases hio : (vols x.volume_id).type = "io1"
  · rw [if_pos ⟨rfl, hio⟩]
    simp [hio]
  · rw [if_neg (fun hc => hio hc.2)]
    simp [hio]

/-- Witness for the amended C8 at an `io1` guest root volume. -/
theorem updatedImageBdm_guest_root_preserved_witness :
    (⟨"vol-g", some "io1", some 500, false⟩ : UpdBdmEntry).volume_type =
      some ((fun _ => (⟨"io1", some 500⟩ : UpdVolume)) "vol-g").type ∧
    (((fun _ => (⟨"io1", some 500⟩ : UpdVolume)) "vol-g").type = "io1" →
      (⟨"vol-g", some "io1", some 500, false⟩ : UpdBdmEntry).iops =
        ((fun _ => (⟨"io1", some 500⟩ : UpdVolume)) "vol-g").iops) :=
  updatedImageBdm_guest_root_preserved (fun _ => ⟨"io1", some 500⟩)
    [(GUEST_ROOT_DEVICE_NAME, ⟨"vol-g", none, none, false⟩)]
    ⟨"vol-g", some "io1", some 500, false⟩ (by rfl)

/-! ### C5: cleanup ordering -/

theorem terminateLoop_events_isTerm (ok : String → Bool) (l : List String) :
    ∀ e ∈ (terminateLoop ok l).1, isTerminateReq e = true := by
  induction l with
  | nil =>
    intro e he
    simp [terminateLoop] at he
  | cons a rest ih =>
    intro e he
    by_cases ha : ok a = true
    · simp only [terminateLoop, if_pos ha] at he
      rcases List.mem_cons.mp he with h | h
      · subst h
        rfl
      · exact ih e h
    · simp only [terminateLoop, if_neg ha] at he
      rcases List.mem_cons.mp he with h | h
      · subst h
        rfl
      · exact ih e h

theorem terminateLoop_mem_term (ok : String → Bool) (l : List String)
    (id : String) (h : CleanEv.terminateReq id true ∈ (terminateLoop ok l).1) :
    id ∈ (terminateLoop ok l).2 := by
  induction l with
  | nil => simp [terminateLoop] at h
  | cons a rest ih =>
    by_cases ha : ok a = true
    · simp only [terminateLoop, if_pos ha] at h ⊢
      rcases List.mem_cons.mp h with hc | hc
      · have : id = a := by
          cases hc
          rfl
        exact this ▸ List.mem_cons_self id _
      · exact List.mem_cons_of_mem a (ih hc)
    · simp only [terminateLoop, if_neg ha] at h ⊢
      rcases List.mem_cons.mp h with hc | hc
      · cases hc
      · exact ih hc

/-- C5.  A completed `_clean_up` run decomposes into three consecutive
phases: first all instance-termination requests, then a phase with no
termination request and no volume or security-group deletion (snapshot
deletions and the waits for terminated instances), then the volume and
security-group deletions; and every instance whose termination request
succeeded has its wait-until-terminated event inside the middle phase,
hence before any volume or security-group deletion is attempted. -/
theorem cleanUp_termination_before_deletes (ok : String → Bool)
    (iids vids sids gids : List String) (evs : List CleanEv)
    (hok : cleanUp ok (some iids) (some vids) (some sids) (some gids) =
      .ok evs) :
    ∃ A B C, evs = A ++ B ++ C ∧
      (∀ e ∈ A, isTerminateReq e = true) ∧
      (∀ e ∈ B, isTerminateReq e = false ∧ isLateDelete e = false) ∧
      (∀ e ∈ C, isTerminateReq e = false ∧ isWaitTerminated e = false) ∧
      (∀ id, CleanEv.terminateReq id true ∈ evs →
        CleanEv.waitTerminated id ∈ B) := by
  have hevs : evs = (terminateLoop ok iids).1 ++
      (sids.map CleanEv.deleteSnapshotCall ++
        (terminateLoop ok iids).2.map CleanEv.waitTerminated) ++
      (vids.map CleanEv.deleteVolumeCall ++
        gids.map CleanEv.deleteSecurityGroupCall) := by
    simp only [cleanUp, Except.ok.injEq] at hok
    rw [← hok]
    simp [List.append_assoc]
  refine ⟨_, _, _, hevs, terminateLoop_events_isTerm ok iids, ?_, ?_, ?_⟩
  · intro e he
    rcases List.mem_append.mp he with h | h
    · obtain ⟨a, _, rfl⟩ := List.mem_map.mp h
      exact ⟨rfl, rfl⟩
    · obtain ⟨a, _, rfl⟩ := List.mem_map.mp h
      exact ⟨rfl, rfl⟩
  · intro e he
    rcases List.mem_append.mp he with h | h
    · obtain ⟨a, _, rfl⟩ := List.mem_map.mp h
      exact ⟨rfl, rfl⟩
    · obtain ⟨a, _, rfl⟩ := List.mem_map.mp h
      exact ⟨rfl, rfl⟩
  · intro id hid
    rw [hevs] at hid
    rcases List.mem_append.mp hid with h01 | h2
    · rcases List.mem_append.mp h01 with h0 | h1
      · exact List.mem_append_right _
          (List.mem_map_of_mem CleanEv.waitTerminated
            (terminateLoop_mem_term ok iids id h0))
      · rcases List.mem_append.mp h1 with h | h
        · obtain ⟨a, _, ha⟩ := List.mem_map.mp h
          cases ha
        · obtain ⟨a, _, ha⟩ := List.mem_map.mp h
          cases ha
    · rcases List.mem_append.mp h2 with h | h
      · obtain ⟨a, _, ha⟩ := List.mem_map.mp h
        cases ha
      · obtain ⟨a, _, ha⟩ := List.mem_map.mp h
        cases ha

/-- Witness for C5 at a concrete cleanup run with one instance, one
volume and one security group. -/
theorem cleanUp_termination_before_deletes_witness :
    ∃ A B C,
      [CleanEv.terminateReq "i-1" true, CleanEv.waitTerminated "i-1",
        CleanEv.deleteVolumeCall "v-1",
        CleanEv.deleteSecurityGroupCall "sg-1"] = A ++ B ++ C ∧
      (∀ e ∈ A, isTerminateReq e = true) ∧
      (∀ e ∈ B, isTerminateReq e = false ∧ isLateDelete e = false) ∧
      (∀ e ∈ C, isTerminateReq e = false ∧ isWaitTerminated e = false) ∧
      (∀ id, CleanEv.terminateReq id true ∈
          [CleanEv.terminateReq "i-1" true, CleanEv.waitTerminated "i-1",
            CleanEv.deleteVolumeCall "v-1",
            CleanEv.deleteSecurityGroupCall "sg-1"] →
        CleanEv.waitTerminated id ∈ B) :=
  cleanUp_termination_before_deletes (fun _ => true) ["i-1"] ["v-1"] []
    ["sg-1"] _ rfl

/-! ### C2 and C3: the encryption poll loop -/

theorem waitLoop_step (polls : List EncPoll) (T fuel k : Nat)
    (hk : k < polls.length) (hterm : terminatesAt polls T k = false) :
    waitLoop polls T (fuel + 1) k (errStreak polls k) (runningMax polls k)
        (lastResetTime polls k) =
      waitLoop polls T fuel (k + 1) (errStreak polls (k + 1))
        (runningMax polls (k + 1)) (lastResetTime polls (k + 1)) := by
  have hstreak : ¬ (MAX_ERRS ≤ errStreak polls k) := by
    intro hc
    simp [terminatesAt, hc] at hterm
  rcases hget : polls[k]? with _ | (_ | st)
  · exact absurd (List.getElem?_eq_none_iff.mp hget) (by omega)
  · have h1 : errStreak polls (k + 1) = errStreak polls k + 1 := by
      simp [errStreak, hget]
    have h2 : runningMax polls (k + 1) = runningMax polls k := by
      simp [runningMax, getOk, hget]
    have h3 : lastResetTime polls (k + 1) = lastResetTime polls k := by
      simp [lastResetTime, getOk, hget]
    rw [h1, h2, h3]
    simp only [waitLoop, hget, if_neg hstreak]
  · have hineq : ¬ (lastResetTime polls k + T < 10 * k) := by
      intro hc
      simp [terminatesAt, getOk, hget, hc] at hterm
    have hsucc : ¬ (st.state = ENCRYPT_SUCCESSFUL) := by
      intro hc
      simp [terminatesAt, getOk, hget, hc] at hterm
    have hfail : ¬ (st.state = ENCRYPT_FAILED) := by
      intro hc
      simp [terminatesAt, getOk, hget, hc] at hterm
    have h1 : errStreak polls (k + 1) = 0 := by
      simp [errStreak, hget]
    have h2 : runningMax polls (k + 1) =
        (if runningMax polls k < st.percent_complete then
          st.percent_complete else runningMax polls k) := by
      simp only [runningMax, getOk, hget]
      rw [Nat.max_def]
      split_ifs <;> omega
    have h3 : lastResetTime polls (k + 1) =
        (if runningMax polls k < st.percent_complete then 10 * k
          else lastResetTime polls k) := by
      simp only [lastResetTime, getOk, hget]
    rw [h1, h2, h3]
    simp only [waitLoop, hget, if_neg hstreak, if_neg hineq, if_neg hsucc,
      if_neg hfail]

theorem waitLoop_advance (polls : List EncPoll) (T : Nat) (m : Nat)
    (hm : m ≤ polls.length)
    (hact : ∀ j, j < m → terminatesAt polls T j = false) :
    waitForEncryption polls T =
      waitLoop polls T (polls.length + 1 - m) m (errStreak polls m)
        (runningMax polls m) (lastResetTime polls m) := by
  induction m with
  | zero => rfl
  | succ n ih =>
    have hrw := ih (by omega) (fun j hj => hact j (by omega))
    rw [hrw]
    have hfuel : polls.length + 1 - n = (polls.length + 1 - (n + 1)) + 1 := by
      omega
    rw [hfuel]
    exact waitLoop_step polls T _ n (by omega) (hact n (by omega))

theorem waitForEncryption_stalls_of (polls : List EncPoll) (T m : Nat)
    (hact : ∀ j, j < m → terminatesAt polls T j = false)
    (hstall : stallsAt polls T m = true) :
    waitForEncryption polls T = .stalled := by
  simp only [stallsAt, Bool.and_eq_true, decide_eq_true_eq,
    Option.isSome_iff_exists] at hstall
  obtain ⟨⟨hstreak, st, hst⟩, hineq⟩ := hstall
  have hget := getOk_eq_some_iff.mp hst
  obtain ⟨hm, -⟩ := List.getElem?_eq_some.mp hget
  rw [waitLoop_advance polls T m (by omega) hact]
  have hfuel : polls.length + 1 - m = (polls.length - m) + 1 := by omega
  rw [hfuel]
  simp only [waitLoop, hget]
  rw [if_neg (by omega : ¬ (MAX_ERRS ≤ errStreak polls m)), if_pos hineq]

theorem waitLoop_stalled_implies (polls : List EncPoll) (T : Nat) :
    ∀ fuel k, k + fuel = polls.length + 1 →
    (∀ j, j < k → terminatesAt polls T j = false) →
    waitLoop polls T fuel k (errStreak polls k) (runningMax polls k)
      (lastResetTime polls k) = .stalled →
    ∃ m, (∀ j, j < m → terminatesAt polls T j = false) ∧
      stallsAt polls T m = true := by
  intro fuel
  induction fuel with
  | zero =>
    intro k _ _ hres
    simp [waitLoop] at hres
  | succ fuel ih =>
    intro k hk hact hres
    by_cases hstreak : MAX_ERRS ≤ errStreak polls k
    · simp only [waitLoop, if_pos hstreak] at hres
      cases hres
    · rcases hget : polls[k]? with _ | (_ | st)
      · simp only [waitLoop, if_neg hstreak, hget] at hres
        cases hres
      · have hterm : terminatesAt polls T k = false := by
          simp [terminatesAt, getOk, hget, hstreak]
        have hkl : k < polls.length := by
          obtain ⟨h, -⟩ := List.getElem?_eq_some.mp hget
          exact h
        rw [waitLoop_step polls T fuel k hkl hterm] at hres
        refine ih (k + 1) (by omega) (fun j hj => ?_) hres
        rcases Nat.lt_or_ge j k with h | h
        · exact hact j h
        · have hjk : j = k := by omega
          subst hjk
          exact hterm
      · by_cases hineq : lastResetTime polls k + T < 10 * k
        · refine ⟨k, hact, ?_⟩
          have hok : getOk polls k = some st := getOk_eq_some_iff.mpr hget
          unfold stallsAt
          rw [hok]
          simp [hineq]
          omega
        · by_cases hsucc : st.state = ENCRYPT_SUCCESSFUL
          · simp only [waitLoop, if_neg hstreak, hget, if_neg hineq,
              if_pos hsucc] at hres
            cases hres
          · by_cases hfail : st.state = ENCRYPT_FAILED
            · simp only [waitLoop, if_neg hstreak, hget, if_neg hineq,
                if_neg hsucc, if_pos hfail] at hres
              by_cases hfc : st.failure_code =
                  some FAILURE_CODE_UNSUPPORTED_GUEST
              · rw [if_pos hfc] at hres
                cases hres
              · rw [if_neg hfc] at hres
                cases hres
            · have hterm : terminatesAt polls T k = false := by
                simp [terminatesAt, getOk, hget, hstreak, hineq, hsucc,
                  hfail]
              have hkl : k < polls.length := by
                obtain ⟨h, -⟩ := List.getElem?_eq_some.mp hget
                exact h
              rw [waitLoop_step polls T fuel k hkl hterm] at hres
              refine ih (k + 1) (by omega) (fun j hj => ?_) hres
              rcases Nat.lt_or_ge j k with h | h
              · exact hact j h
              · have hjk : j = k := by omega
                subst hjk
                exact hterm

/-- C2.  `wait_for_encryption` raises the stall-timeout error if and only
if some poll observes a status while more than `progress_timeout` seconds
have elapsed since the last poll that observed `percent_complete`
increase (the start of the run when none did), with no earlier poll
having ended the loop.  The deadline is a function of the last observed
increase only - `lastResetTime` - so any increase resets it and total
elapsed time alone never triggers the error. -/
theorem waitForEncryption_stalled_iff (polls : List EncPoll) (T : Nat) :
    waitForEncryption polls T = .stalled ↔
    ∃ m, (∀ j, j < m → terminatesAt polls T j = false) ∧
      stallsAt polls T m = true := by
  constructor
  · intro h
    exact waitLoop_stalled_implies polls T (polls.length + 1) 0 (by omega)
      (fun j hj => absurd hj (Nat.not_lt_zero j)) h
  · rintro ⟨m, hact, hstall⟩
    exact waitForEncryption_stalls_of polls T m hact hstall

/-- C3.  When a poll observes `state == failed` and the loop is still
running (no earlier termination, fewer than ten consecutive status
failures, and the progress deadline not yet expired - the source checks
the stall condition first), `wait_for_encryption` raises the
unsupported-guest error exactly when `failure_code` is the
unsupported-guest code, and the generic encryption-failure error for
every other failure code. -/
theorem waitForEncryption_failed_dispatch (polls : List EncPoll)
    (T m : Nat) (st : EncStatus)
    (hact : ∀ j, j < m → terminatesAt polls T j = false)
    (hst : getOk polls m = some st)
    (hstreak : errStreak polls m < MAX_ERRS)
    (hnostall : ¬ (lastResetTime polls m + T < 10 * m))
    (hfailed : st.state = ENCRYPT_FAILED) :
    waitForEncryption polls T =
      (if st.failure_code = some FAILURE_CODE_UNSUPPORTED_GUEST then
        .unsupportedGuest else .encryptionFailed) := by
  have hget := getOk_eq_some_iff.mp hst
  obtain ⟨hm, -⟩ := List.getElem?_eq_some.mp hget
  have hsucc : ¬ (st.state = ENCRYPT_SUCCESSFUL) := by
    rw [hfailed]
    decide
  rw [waitLoop_advance polls T m (by omega) hact]
  have hfuel : polls.length + 1 - m = (polls.length - m) + 1 := by omega
  rw [hfuel]
  simp only [waitLoop, hget]
  rw [if_neg (by omega : ¬ (MAX_ERRS ≤ errStreak polls m)),
    if_neg hnostall, if_neg hsucc, if_pos hfailed]

/-- Witness for C3: a first poll reporting `state = failed` with the
unsupported-guest failure code makes `wait_for_encryption` raise the
unsupported-guest error. -/
theorem waitForEncryption_failed_dispatch_witness :
    waitForEncryption
      [some ⟨ENCRYPT_FAILED, 0, some FAILURE_CODE_UNSUPPORTED_GUEST⟩]
      ENCRYPTION_PROGRESS_TIMEOUT = .unsupportedGuest := by
  have h := waitForEncryption_failed_dispatch
    [some ⟨ENCRYPT_FAILED, 0, some FAILURE_CODE_UNSUPPORTED_GUEST⟩]
    ENCRYPTION_PROGRESS_TIMEOUT 0
    ⟨ENCRYPT_FAILED, 0, some FAILURE_CODE_UNSUPPORTED_GUEST⟩
    (fun j hj => absurd hj (Nat.not_lt_zero j)) rfl (by decide)
    (by decide) rfl
  simpa using h

end BrktCli
